/-
Verification of the ChatBot_UGF RAG core against its specification.

The repository snapshot contains the documentation (PRD, technical deep dive),
the relational schema (database/schema.sql) and the React/TypeScript frontend
(chatbot-test/src/components/ChatBot.js, frontend/chatbot-api.ts, and an
unnamed JS api helper module).  The Python FastAPI backend (chunker, embedder,
vector store, retriever, confidence gate, feedback loop) is not part of the
snapshot, so those components are modelled from the specification text, as
marked on each definition.  The frontend components are translated directly
from the JavaScript/TypeScript sources.
-/
import Mathlib

namespace Gate

/-- Modelled from the spec: Confidence Gate configuration (spec 4.5).  The
backend module holding the gate is not in the repository snapshot.
Thresholds are configuration values, not hard-coded constants. -/
structure GateConfig where
  fallbackThreshold : ℚ
  answerThreshold : ℚ
deriving DecidableEq

/-- Modelled from the spec: the three outcomes of the Confidence Gate
(spec 4.5): answer, answer-with-warning, refuse. -/
inductive GateOutcome where
  | answer
  | answerWithWarning
  | refuse
deriving DecidableEq

/-- Modelled from the spec (4.5): the gate maps the top retrieval score
(`none` when the RetrievalResult is empty) to an outcome.
Refuse when the result is empty or the top score is below
`fallbackThreshold`; warn when it is below `answerThreshold`;
otherwise answer cleanly. -/
def confidenceGate (cfg : GateConfig) (topScore : Option ℚ) : GateOutcome :=
  match topScore with
  | none => .refuse
  | some s =>
    if s < cfg.fallbackThreshold then .refuse
    else if s < cfg.answerThreshold then .answerWithWarning
    else .answer

/-- Modelled from the spec (4.5, 8): the answer-with-warning outcome marks
`requiresAttention = true`; a refusal is also flagged for admin attention
(spec 8, empty-store scenario); a clean answer carries no flag. -/
def GateOutcome.requiresAttention : GateOutcome → Bool
  | .answer => false
  | .answerWithWarning => true
  | .refuse => true

/-- Modelled from the spec (4.5): number of UnansweredQuery records created
by the gate outcome: one for answer-with-warning, one for refusal, none for
a clean answer. -/
def GateOutcome.unansweredRecords : GateOutcome → Nat
  | .answer => 0
  | .answerWithWarning => 1
  | .refuse => 1

/-- Modelled from the spec (4.5): whether generation is performed. -/
def GateOutcome.proceedsToGeneration : GateOutcome → Bool
  | .answer => true
  | .answerWithWarning => true
  | .refuse => false

/-- Default configuration from the spec: fallbackThreshold 0.3,
answerThreshold 0.6. -/
def defaultConfig : GateConfig := ⟨3/10, 6/10⟩

end Gate

namespace Health

/-- Constant from src/unnamed/part_002 checkHealth: 20000 ms timeout armed
per fetch attempt via an abort controller. -/
def attemptTimeoutMs : Nat := 20000

/-- Constant from src/unnamed/part_002 checkHealth: 15000 ms delay between
retry attempts. -/
def retryDelayMs : Nat := 15000

/-- Constant from src/unnamed/part_002 checkHealth: maximum of 3 attempts. -/
def maxRetries : Nat := 3

/-- Outcome of one raw fetch of the /health endpoint, before timeout
handling: a parsed payload when response.ok holds, an http error
(response not ok), or a rejected fetch. -/
inductive FetchResult (α : Type) where
  | ok (value : α)
  | httpError
  | networkError

/-- Errors a health-check attempt can end in: the explicit
`API is down` throw, a network rejection, or the abort fired by the
20 second timer. -/
inductive HealthError where
  | apiDown
  | network
  | aborted
deriving DecidableEq

/-- One attempt of the unnamed-module checkHealth: the abort controller
fires when the fetch takes `attemptTimeoutMs` or longer, otherwise a
non-ok response raises `apiDown` and a rejected fetch raises `network`. -/
def attemptResult (fetchMs : Nat) (res : FetchResult α) : Except HealthError α :=
  if attemptTimeoutMs ≤ fetchMs then .error .aborted
  else
    match res with
    | .ok v => .ok v
    | .httpError => .error .apiDown
    | .networkError => .error .network

/-- Retry loop of src/unnamed/part_002 checkHealth: attempts are numbered
from 1; a failing attempt below `maxRetries` waits `retryDelayMs` and
retries; the error of attempt `maxRetries` is rethrown.  The second
component records the waits performed between attempts. -/
def healthLoop (outcome : Nat → Except HealthError α) (attempt : Nat)
    (waits : List Nat) : Except HealthError α × List Nat :=
  match outcome attempt with
  | .ok h => (.ok h, waits)
  | .error e =>
    if _h : attempt < maxRetries then
      healthLoop outcome (attempt + 1) (waits ++ [retryDelayMs])
    else (.error e, waits)
termination_by maxRetries - attempt

/-- checkHealth from src/unnamed/part_002: up to `maxRetries` attempts,
each aborted after `attemptTimeoutMs`, with `retryDelayMs` waits in
between; `fetchMs i` and `res i` describe the fetch of attempt `i`. -/
def checkHealthRetrying (fetchMs : Nat → Nat) (res : Nat → FetchResult α) :
    Except HealthError α × List Nat :=
  healthLoop (fun i => attemptResult (fetchMs i) (res i)) 1 []

/-- checkHealth from src/frontend/chatbot-api.ts: a single fetch with no
timeout and no retry; a non-ok response or rejected fetch throws
immediately. -/
def checkHealthSingle (res : FetchResult α) : Except HealthError α :=
  match res with
  | .ok v => .ok v
  | .httpError => .error .apiDown
  | .networkError => .error .network

end Health

namespace Chat

/-- Sender tag of a frontend chat message (ChatBot.js). -/
inductive Sender where
  | user
  | bot
deriving DecidableEq

/-- One entry of the `messages` state array in ChatBot.js, restricted to
the fields the component logic branches on (ids and timestamps are
wall-clock values abstracted away). -/
structure Message where
  text : String
  sender : Sender
deriving DecidableEq

/-- Response shape of POST /chat consumed by ChatBot.js, from the
ChatResponse interface in src/frontend/chatbot-api.ts. -/
structure ChatResponse where
  response : String
  confidence_score : ℚ
  sources : List String
  requires_attention : Bool
  conversation_id : String

/-- Component state of ChatBot.js touched by handleSendMessage:
the messages array, the input field, the loading flag and the online
flag. -/
structure ChatState where
  messages : List Message
  input : String
  loading : Bool
  isOnline : Bool
deriving DecidableEq

/-- Whitespace as stripped by the JavaScript string trim used in
`input.trim()`: the ECMAScript WhiteSpace and LineTerminator sets — tab,
LF, VT, FF, CR, space, NBSP, ZWNBSP, the Unicode Zs space separators
(OGHAM space, en quad through hair space, narrow no-break space, medium
mathematical space, ideographic space), and the LS/PS line separators. -/
def jsWhitespace (c : Char) : Bool :=
  c = ' ' || c = '\t' || c = '\n' || c = '\r' ||
  c = '\x0B' || c = '\x0C' || c = '\u00A0' || c = '\uFEFF' ||
  c = '\u1680' || (0x2000 ≤ c.toNat && c.toNat ≤ 0x200A) ||
  c = '\u2028' || c = '\u2029' || c = '\u202F' || c = '\u205F' ||
  c = '\u3000'

/-- JavaScript-style trim: drop leading and trailing whitespace. -/
def jsTrim (s : String) : String :=
  ⟨((s.data.dropWhile jsWhitespace).reverse.dropWhile jsWhitespace).reverse⟩

/-- Warning text appended by ChatBot.js when the backend response has
requires_attention set (low-confidence warning bubble; contraction
expanded). -/
def lowConfidenceWarning : String :=
  "⚠️ This answer has low confidence. If it does not help, please contact our support team."

/-- Error text appended by ChatBot.js when the API call fails. -/
def chatErrorText : String :=
  "Sorry, I encountered an error. Please try again later."

/-- handleSendMessage from ChatBot.js as a state transformer.  The guard
returns the state unchanged when the trimmed input is empty or the
component is offline.  Otherwise the user message is appended, the input
cleared, and depending on the awaited API result (`Except` models the
try/catch) the bot answer plus an optional low-confidence warning, or an
error bubble, is appended; loading ends false. -/
def handleSendMessage (st : ChatState) (result : Except Unit ChatResponse) :
    ChatState :=
  if jsTrim st.input = "" ∨ st.isOnline = false then st
  else
    let userMsg : Message := ⟨st.input, .user⟩
    let tail : List Message :=
      match result with
      | .ok resp =>
        if resp.requires_attention then
          [⟨resp.response, .bot⟩, ⟨lowConfidenceWarning, .bot⟩]
        else
          [⟨resp.response, .bot⟩]
      | .error _ => [⟨chatErrorText, .bot⟩]
    { st with
        messages := st.messages ++ userMsg :: tail
        input := ""
        loading := false }

end Chat

namespace VecMath

/-- Modelled from the spec (4.3): dot product of two embedding vectors.
The similarity code lives in the Python backend, which is not in the
repository snapshot; floats are modelled by real numbers. -/
noncomputable def dot (a b : List ℝ) : ℝ := (List.zipWith (· * ·) a b).sum

/-- Modelled from the spec (4.3): euclidean norm of an embedding vector. -/
noncomputable def vnorm (a : List ℝ) : ℝ := Real.sqrt (dot a a)

/-- Modelled from the spec (4.3): cosine similarity
`cos(a,b) = (a·b) / (‖a‖·‖b‖)`, defined as 0 when either vector has zero
norm. -/
noncomputable def cosSim (a b : List ℝ) : ℝ :=
  if vnorm a = 0 ∨ vnorm b = 0 then 0 else dot a b / (vnorm a * vnorm b)

/-- Modelled from the spec (4.3): relevance score, the cosine mapped from
[-1,1] to [0,1] via `score = (cos + 1) / 2`. -/
noncomputable def relevanceScore (a b : List ℝ) : ℝ := (cosSim a b + 1) / 2

end VecMath

namespace Store

/-- Modelled from the spec (3, 4.3): a chunk record persisted by the
Vector Store.  The embedding type is a parameter so that the discrete
store logic stays executable (rational scores in witnesses, real vectors
in the similarity development). -/
structure Chunk (ε : Type) where
  content : String
  source : String
  docType : String
  embedding : ε
deriving DecidableEq

/-- Modelled from the spec (4.3): the Vector Store state; chunks are kept
in insertion order and a chunk id is its insertion index. -/
structure VectorStore (ε : Type) where
  chunks : List (Chunk ε)
deriving DecidableEq

/-- Modelled from the spec (4.3): `count()` of the store. -/
def VectorStore.count (s : VectorStore ε) : Nat := s.chunks.length

/-- The store holding no chunks. -/
def emptyStore (ε : Type) : VectorStore ε := ⟨[]⟩

/-- Modelled from the spec (4.3): the dedup key is the literal
(source, content) pair. -/
def samePair (c d : Chunk ε) : Bool :=
  c.source == d.source && c.content == d.content

/-- Insertion index of an already-stored chunk with the same
(source, content) pair, if any. -/
def VectorStore.existingIdx (s : VectorStore ε) (c : Chunk ε) : Option Nat :=
  s.chunks.findIdx? (samePair c)

/-- Modelled from the spec (4.3): `insert(chunk)` with the dedup policy
enabled: when a chunk with the identical (source, content) pair is already
stored, the insert is skipped and the existing id returned; otherwise the
chunk is appended and assigned the next index. -/
def VectorStore.insert (s : VectorStore ε) (c : Chunk ε) : Nat × VectorStore ε :=
  match s.existingIdx c with
  | some i => (i, s)
  | none => (s.count, ⟨s.chunks ++ [c]⟩)

/-- Number of stored chunks sharing the (source, content) pair of `c`. -/
def VectorStore.countPair (s : VectorStore ε) (c : Chunk ε) : Nat :=
  (s.chunks.filter (samePair c)).length

/-- Entry of a RetrievalResult: a retrieved chunk together with its
insertion index and its relevance score. -/
structure Ranked (ε α : Type) where
  idx : Nat
  chunk : Chunk ε
  score : α

/-- Modelled from the spec (4.3): the ranking order of retrieval — higher
score first, ties broken by ascending insertion index. -/
def rankLe [LinearOrder α] (x y : Ranked ε α) : Prop :=
  y.score < x.score ∨ (x.score = y.score ∧ x.idx ≤ y.idx)

instance rankLeDecidable [LinearOrder α] :
    DecidableRel (rankLe (ε := ε) (α := α)) := fun x y =>
  inferInstanceAs
    (Decidable (y.score < x.score ∨ (x.score = y.score ∧ x.idx ≤ y.idx)))

instance rankLeTotal [LinearOrder α] :
    IsTotal (Ranked ε α) rankLe where
  total a b := by
    rcases lt_trichotomy a.score b.score with h | h | h
    · exact Or.inr (Or.inl h)
    · rcases le_total a.idx b.idx with hle | hle
      · exact Or.inl (Or.inr ⟨h, hle⟩)
      · exact Or.inr (Or.inr ⟨h.symm, hle⟩)
    · exact Or.inl (Or.inl h)

instance rankLeTrans [LinearOrder α] :
    IsTrans (Ranked ε α) rankLe where
  trans a b c hab hbc := by
    rcases hab with h1 | ⟨h1eq, h1le⟩
    · rcases hbc with h2 | ⟨h2eq, _⟩
      · exact Or.inl (h2.trans h1)
      · exact Or.inl (lt_of_eq_of_lt h2eq.symm h1)
    · rcases hbc with h2 | ⟨h2eq, h2le⟩
      · exact Or.inl (lt_of_lt_of_eq h2 h1eq.symm)
      · exact Or.inr ⟨h1eq.trans h2eq, h1le.trans h2le⟩

/-- The stored chunks paired with their insertion indices and scores
against the current query (`scoreFn` is the relevance of an embedding to
the query vector). -/
def scoredList (s : VectorStore ε) (scoreFn : ε → α) : List (Ranked ε α) :=
  s.chunks.enum.map fun p => ⟨p.1, p.2, scoreFn p.2.embedding⟩

/-- Modelled from the spec (4.3): `query` returns the topK stored chunks
by relevance score, ties stable by insertion order. -/
def VectorStore.query [LinearOrder α] (s : VectorStore ε) (scoreFn : ε → α)
    (topK : Nat) : List (Ranked ε α) :=
  ((scoredList s scoreFn).insertionSort rankLe).take topK

/-- Modelled from the spec (4.2): the Embedder contract — `embed` maps
text to a vector of the fixed model dimension `dim` (384 for
all-MiniLM-L6-v2); the fixed output length is part of the contract. -/
structure Embedder where
  dim : Nat
  embed : String → List ℝ
  embed_dim : ∀ t, (embed t).length = dim

/-- Modelled from the spec (2, 4.8): the operations that write embeddings
into the documents store: document ingestion, admin promotion of a
resolved unanswered query, and re-embedding on model upgrade. -/
inductive StoreOp where
  | ingest (content source docType : String)
  | promote (userQuery adminResponse : String)
  | reembed

/-- Modelled from the spec (2, 4.3, 4.8): effect of one store operation.
Ingestion inserts a chunk embedded by the Embedder; promote builds a chunk
from the user query plus the admin response and inserts it; re-embedding
maps every stored chunk through the Embedder again. -/
def applyOp (E : Embedder) (s : VectorStore (List ℝ)) :
    StoreOp → VectorStore (List ℝ)
  | .ingest content source docType =>
    (s.insert ⟨content, source, docType, E.embed content⟩).2
  | .promote q r =>
    (s.insert ⟨q ++ " " ++ r, "admin", "faq", E.embed (q ++ " " ++ r)⟩).2
  | .reembed =>
    ⟨s.chunks.map fun c => { c with embedding := E.embed c.content }⟩

/-- A sequence of store operations applied in order. -/
def applyOps (E : Embedder) (s : VectorStore (List ℝ))
    (ops : List StoreOp) : VectorStore (List ℝ) :=
  ops.foldl (applyOp E) s

/-- The invariant of spec 3: every persisted embedding has the fixed
model dimension `D`. -/
def dimInvariant (D : Nat) (s : VectorStore (List ℝ)) : Prop :=
  ∀ c ∈ s.chunks, c.embedding.length = D

end Store

namespace Pipeline

/-- Fixed refusal text (spec 4.5 and 7; PRD FR-10 wording with the
contraction expanded).  The refusal is a single constant, used for every
refusal regardless of its internal cause. -/
def refusalMessage : String :=
  "I do not have enough information in my documents to answer this."

/-- Modelled from the spec (4.6): deterministic prompt built from the
role statement, the retrieved chunk contents tagged in rank order, and
the question. -/
def buildPrompt (retrieved : List (Store.Ranked ε ℚ)) (question : String) :
    String :=
  "You are a helpful assistant. Answer based ONLY on the following context: "
    ++ String.join (retrieved.map fun r => r.chunk.content ++ " ")
    ++ "Question: " ++ question

/-- Outcome of one chat turn as visible at the API boundary. -/
structure ChatTurn where
  response : String
  requiresAttention : Bool
  unansweredCreated : Nat
deriving DecidableEq

/-- Modelled from the spec (2, 4.4, 4.5, 7): one query turn.  The query
embedding is abstracted into `scoreFn` (the relevance of a stored
embedding to this query) and the language model into `gen`.  The store is
queried for the topK chunks; the Confidence Gate decides on the top score;
refusal skips generation and returns the fixed `refusalMessage`. -/
def respondTurn (gen : String → String) (cfg : Gate.GateConfig)
    (s : Store.VectorStore ε) (scoreFn : ε → ℚ) (topK : Nat)
    (question : String) : ChatTurn :=
  match Gate.confidenceGate cfg
      ((s.query scoreFn topK).head?.map fun r => r.score) with
  | .refuse => ⟨refusalMessage, true, 1⟩
  | .answerWithWarning =>
    ⟨gen (buildPrompt (s.query scoreFn topK) question), true, 1⟩
  | .answer =>
    ⟨gen (buildPrompt (s.query scoreFn topK) question), false, 0⟩

end Pipeline

namespace Chunker

/-- Modelled from the spec (4.1, 9): a conventional separator priority
list — line break, sentence-ending punctuation, space — followed by a
hard character cut; the spec leaves the exact list open (9, open
question). -/
def separators : List Char := ['\n', '.', ' ']

/-- One foldr step of splitting on a separator: a separator character
closes the piece it terminates (the separator stays attached to the end
of its piece, so no character is lost). -/
def sepStep (c : Char) (x : Char) (acc : List (List Char)) :
    List (List Char) :=
  if x = c then [x] :: acc
  else
    match acc with
    | [] => [[x]]
    | p :: ps => (x :: p) :: ps

/-- Split on one separator, keeping separators; the pieces concatenate
back to the input. -/
def splitKeepSep (c : Char) (s : List Char) : List (List Char) :=
  s.foldr (sepStep c) []

/-- Hard character cut into blocks of `n + 1` characters, with fuel for
structural recursion; with fuel at least the input length the final
answer is reached, and exhausted fuel passes the remainder through as one
block (content is never dropped). -/
def hardCutFuel : Nat → Nat → List Char → List (List Char)
  | _, _, [] => []
  | 0, _, s => [s]
  | fuel + 1, n, x :: xs => (x :: xs.take n) :: hardCutFuel fuel n (xs.drop n)

/-- Hard character cut of the spec (4.1): blocks of exactly `n`
characters (the last may be shorter). -/
def hardCut (n : Nat) (s : List Char) : List (List Char) :=
  hardCutFuel s.length (n - 1) s

/-- Modelled from the spec (4.1): recursive splitting along the separator
priority list.  A piece within chunkSize is kept whole; otherwise it is
split at the current separator and each part is recursively split with
the remaining separators; with no separator left, a hard character cut at
chunkSize applies. -/
def recSplit (chunkSize : Nat) : List Char → List Char → List (List Char)
  | _, [] => []
  | [], s@(_ :: _) =>
    if s.length ≤ chunkSize then [s] else hardCut chunkSize s
  | c :: seps, s@(_ :: _) =>
    if s.length ≤ chunkSize then [s]
    else ((splitKeepSep c s).map fun p => recSplit chunkSize seps p).flatten

/-- Re-merging of adjacent small segments up to chunkSize (spec 4.1),
with fuel for structural recursion; exhausted fuel returns the remaining
segments unchanged (content is never dropped). -/
def mergeFuel : Nat → Nat → List (List Char) → List (List Char)
  | 0, _, l => l
  | _, _, [] => []
  | _ + 1, _, [p] => [p]
  | fuel + 1, n, p :: q :: rest =>
    if p.length + q.length ≤ n then mergeFuel fuel n ((p ++ q) :: rest)
    else p :: mergeFuel fuel n (q :: rest)

/-- Modelled from the spec (4.1): re-merge adjacent small segments up to
chunkSize. -/
def mergeSegments (chunkSize : Nat) (l : List (List Char)) :
    List (List Char) :=
  mergeFuel l.length chunkSize l

/-- The last `n` characters of a list. -/
def takeLast (n : Nat) (s : List Char) : List Char :=
  s.drop (s.length - n)

/-- Modelled from the spec (4.1): the trailing `overlap` characters of
segment i are inserted as the leading content of segment i+1; `prev` is
the previous pre-overlap segment. -/
def addOverlapTail (overlap : Nat) (prev : List Char) :
    List (List Char) → List (List Char)
  | [] => []
  | q :: rest => (takeLast overlap prev ++ q) :: addOverlapTail overlap q rest

/-- Overlap insertion over a whole segment sequence; the first chunk is
the first segment unchanged. -/
def addOverlap (overlap : Nat) : List (List Char) → List (List Char)
  | [] => []
  | p :: rest => p :: addOverlapTail overlap p rest

/-- The pre-overlap segments of a document: recursive split followed by
re-merge. -/
def segments (chunkSize : Nat) (text : List Char) : List (List Char) :=
  mergeSegments chunkSize (recSplit chunkSize separators text)

/-- Invalid chunking configuration (spec 4.1, 7). -/
inductive ChunkerError where
  | configError
deriving DecidableEq

/-- Modelled from the spec (4.1): `split(text, chunkSize, overlap)`
validates `0 ≤ overlap < chunkSize` (ConfigError otherwise), splits
recursively at the separator priorities, re-merges small segments, and
inserts the overlaps. -/
def split (text : List Char) (chunkSize : Nat) (overlap : Nat) :
    Except ChunkerError (List (List Char)) :=
  if overlap < chunkSize then
    .ok (addOverlap overlap (segments chunkSize text))
  else .error .configError

/-- Reassembly exactly as worded by the spec (8): strip the leading
`overlap` characters from every chunk except the first and
concatenate. -/
def reassemble (overlap : Nat) : List (List Char) → List Char
  | [] => []
  | c :: rest => c ++ (rest.map fun q => q.drop overlap).flatten

/-- Reassembly stripping from each later chunk exactly the characters it
borrowed from the previous segment, namely min overlap (previous segment
length); the previous segment is recovered chunk by chunk. -/
def stripOverlaps (overlap : Nat) (prev : List Char) :
    List (List Char) → List (List Char)
  | [] => []
  | c :: rest =>
    c.drop (min overlap prev.length) ::
      stripOverlaps overlap (c.drop (min overlap prev.length)) rest

/-- Adaptive reassembly: first chunk kept whole, later chunks stripped of
their borrowed prefix, then concatenated. -/
def reassembleAdaptive (overlap : Nat) : List (List Char) → List Char
  | [] => []
  | c :: rest => (c :: stripOverlaps overlap c rest).flatten

end Chunker

/-! Helper lemmas -/

theorem VecMath.dot_self_eq_sum_squares (a : List ℝ) :
    dot a a = (a.map fun x => x * x).sum := by
  unfold dot
  congr 1
  induction a with
  | nil => rfl
  | cons x xs ih => simp [List.zipWith, ih]

theorem VecMath.dot_self_nonneg (a : List ℝ) : 0 ≤ dot a a := by
  rw [dot_self_eq_sum_squares]
  exact List.sum_nonneg (by simp +contextual [mul_self_nonneg])

theorem VecMath.dot_self_pos {a : List ℝ} (h : ∃ x ∈ a, x ≠ 0) :
    0 < dot a a := by
  obtain ⟨x, hx, hx0⟩ := h
  rw [dot_self_eq_sum_squares]
  have hmem : x * x ∈ a.map fun x => x * x := List.mem_map_of_mem _ hx
  have hle := List.single_le_sum (l := a.map fun x => x * x)
    (by simp +contextual [mul_self_nonneg]) _ hmem
  have hpos : 0 < x * x := mul_self_pos.mpr hx0
  linarith

theorem VecMath.dot_comm (a b : List ℝ) : dot a b = dot b a := by
  unfold dot
  congr 1
  exact List.zipWith_comm_of_comm _ mul_comm a b

theorem VecMath.cauchy_schwarz (a b : List ℝ) :
    dot a b ^ 2 ≤ dot a a * dot b b := by
  induction a generalizing b with
  | nil =>
    simp [dot]
  | cons x xs ih =>
    cases b with
    | nil => simp [dot]
    | cons y ys =>
      have hA := dot_self_nonneg xs
      have hB := dot_self_nonneg ys
      have hd := ih ys
      have hxy : dot (x :: xs) (y :: ys) = x * y + dot xs ys := by
        simp [dot, List.zipWith]
      have hxx : dot (x :: xs) (x :: xs) = x * x + dot xs xs := by
        simp [dot, List.zipWith]
      have hyy : dot (y :: ys) (y :: ys) = y * y + dot ys ys := by
        simp [dot, List.zipWith]
      rw [hxy, hxx, hyy]
      set d := dot xs ys
      set A := dot xs xs
      set B := dot ys ys
      rcases eq_or_lt_of_le hB with hB0 | hBpos
      · have hdsq : d ^ 2 ≤ 0 := by
          rw [← hB0, mul_zero] at hd
          exact hd
        have hd0 : d = 0 :=
          pow_eq_zero_iff (n := 2) (by norm_num) |>.mp
            (le_antisymm hdsq (sq_nonneg d))
        rw [hd0, ← hB0]
        nlinarith [mul_nonneg hA (sq_nonneg y)]
      · nlinarith [sq_nonneg (x * B - y * d),
          mul_nonneg (sq_nonneg y) (sub_nonneg.2 hd),
          mul_nonneg hBpos.le (sub_nonneg.2 hd), hBpos]

theorem VecMath.abs_dot_le (a b : List ℝ) :
    |dot a b| ≤ vnorm a * vnorm b := by
  have h1 : |dot a b| = Real.sqrt (dot a b ^ 2) := (Real.sqrt_sq_eq_abs _).symm
  have h2 : vnorm a * vnorm b = Real.sqrt (dot a a * dot b b) :=
    (Real.sqrt_mul (dot_self_nonneg a) _).symm
  rw [h1, h2]
  exact Real.sqrt_le_sqrt (cauchy_schwarz a b)

theorem VecMath.cosSim_bounds (a b : List ℝ) :
    -1 ≤ cosSim a b ∧ cosSim a b ≤ 1 := by
  unfold cosSim
  by_cases h : vnorm a = 0 ∨ vnorm b = 0
  · rw [if_pos h]
    norm_num
  · rw [if_neg h]
    push_neg at h
    have ha : 0 < vnorm a :=
      lt_of_le_of_ne (Real.sqrt_nonneg _) (Ne.symm h.1)
    have hb : 0 < vnorm b :=
      lt_of_le_of_ne (Real.sqrt_nonneg _) (Ne.symm h.2)
    have hP : 0 < vnorm a * vnorm b := mul_pos ha hb
    obtain ⟨hlo, hhi⟩ := abs_le.mp (abs_dot_le a b)
    constructor
    · rw [le_div_iff₀ hP]
      linarith
    · rw [div_le_one hP]
      exact hhi

theorem VecMath.cosSim_comm (a b : List ℝ) : cosSim a b = cosSim b a := by
  unfold cosSim
  by_cases h : vnorm a = 0 ∨ vnorm b = 0
  · rw [if_pos h, if_pos (Or.symm h)]
  · rw [if_neg h, if_neg (fun hc => h (Or.symm hc)), dot_comm,
      mul_comm (vnorm b) (vnorm a)]


theorem Health.healthLoop_ok {α : Type} {outcome : Nat → Except HealthError α}
    {attempt : Nat} {waits : List Nat} {v : α} (h : outcome attempt = .ok v) :
    healthLoop outcome attempt waits = (.ok v, waits) := by
  rw [healthLoop.eq_def, h]

theorem Health.healthLoop_err_step {α : Type} {outcome : Nat → Except HealthError α}
    {attempt : Nat} {waits : List Nat} {e : HealthError}
    (h : outcome attempt = .error e) (hlt : attempt < maxRetries) :
    healthLoop outcome attempt waits =
      healthLoop outcome (attempt + 1) (waits ++ [retryDelayMs]) := by
  rw [healthLoop.eq_def, h]
  simp [hlt]

theorem Health.healthLoop_err_last {α : Type} {outcome : Nat → Except HealthError α}
    {attempt : Nat} {waits : List Nat} {e : HealthError}
    (h : outcome attempt = .error e) (hge : ¬ attempt < maxRetries) :
    healthLoop outcome attempt waits = (.error e, waits) := by
  rw [healthLoop.eq_def, h]
  simp [hge]

theorem Chat.jsTrim_eq_empty_of_all_ws (s : String)
    (h : s.data.all Chat.jsWhitespace = true) : Chat.jsTrim s = "" := by
  unfold Chat.jsTrim
  have hnil : s.data.dropWhile Chat.jsWhitespace = [] := by
    rw [List.dropWhile_eq_nil_iff]
    intro x hx
    exact List.all_eq_true.mp h x hx
  rw [hnil]
  rfl

theorem Store.query_pairwise [LinearOrder α] (s : Store.VectorStore ε)
    (f : ε → α) (k : Nat) :
    (s.query f k).Pairwise fun x y =>
      y.score ≤ x.score ∧ (x.score = y.score → x.idx < y.idx) := by
  have hsorted : (List.insertionSort rankLe (scoredList s f)).Pairwise rankLe :=
    List.sorted_insertionSort rankLe (scoredList s f)
  have hperm := List.perm_insertionSort (r := rankLe) (scoredList s f)
  have hnodup_orig : ((scoredList s f).map fun x => x.idx).Nodup := by
    unfold scoredList
    rw [List.map_map]
    have hcomp :
        ((fun x : Ranked ε α => x.idx) ∘
          fun p : Nat × Chunk ε =>
            (⟨p.1, p.2, f p.2.embedding⟩ : Ranked ε α)) = Prod.fst := rfl
    rw [hcomp, List.enum_map_fst]
    exact List.nodup_range _
  have hnodup :
      ((List.insertionSort rankLe (scoredList s f)).map fun x => x.idx).Nodup :=
    ((hperm.map _).nodup_iff).mpr hnodup_orig
  have hne : (List.insertionSort rankLe (scoredList s f)).Pairwise
      fun x y => x.idx ≠ y.idx := List.pairwise_map.mp hnodup
  have hcomb := hsorted.and hne
  have himp : (List.insertionSort rankLe (scoredList s f)).Pairwise
      fun x y => y.score ≤ x.score ∧ (x.score = y.score → x.idx < y.idx) := by
    refine hcomb.imp ?_
    rintro a b ⟨hr, hneq⟩
    rcases hr with hlt | ⟨heq, hle⟩
    · exact ⟨hlt.le, fun habs => absurd (habs ▸ hlt) (lt_irrefl _)⟩
    · exact ⟨heq.symm.le, fun _ => lt_of_le_of_ne hle hneq⟩
  exact himp.sublist (List.take_sublist _ _)

theorem Store.query_empty [LinearOrder α] (f : ε → α) (k : Nat) :
    (Store.emptyStore ε).query f k = [] := by
  unfold VectorStore.query scoredList emptyStore
  simp

theorem Store.mem_query [LinearOrder α] {s : Store.VectorStore ε} {f : ε → α}
    {k : Nat} {x : Ranked ε α} (hx : x ∈ s.query f k) :
    x.chunk ∈ s.chunks ∧ x.score = f x.chunk.embedding := by
  unfold VectorStore.query at hx
  have hx1 : x ∈ (scoredList s f).insertionSort rankLe :=
    (List.take_sublist _ _).subset hx
  have hx2 : x ∈ scoredList s f :=
    (List.perm_insertionSort (r := rankLe) (scoredList s f)).subset hx1
  unfold scoredList at hx2
  obtain ⟨p, hp, rfl⟩ := List.mem_map.mp hx2
  refine ⟨?_, rfl⟩
  rw [← List.enum_map_snd s.chunks]
  exact List.mem_map_of_mem _ hp

theorem Store.samePair_refl (c : Store.Chunk ε) : Store.samePair c c = true := by
  simp [samePair]

theorem Store.insert_dim {D : Nat} {s : Store.VectorStore (List ℝ)}
    {c : Store.Chunk (List ℝ)} (hs : Store.dimInvariant D s)
    (hc : c.embedding.length = D) : Store.dimInvariant D (s.insert c).2 := by
  intro d hd
  unfold VectorStore.insert at hd
  cases h : s.existingIdx c with
  | some i =>
    rw [h] at hd
    exact hs d hd
  | none =>
    rw [h] at hd
    simp only [List.mem_append, List.mem_singleton] at hd
    rcases hd with hd | rfl
    · exact hs d hd
    · exact hc

theorem Store.applyOp_dim {E : Store.Embedder} {s : Store.VectorStore (List ℝ)}
    (op : Store.StoreOp) (hs : Store.dimInvariant E.dim s) :
    Store.dimInvariant E.dim (Store.applyOp E s op) := by
  cases op with
  | ingest content source docType =>
    exact insert_dim hs (E.embed_dim content)
  | promote q r =>
    exact insert_dim hs (E.embed_dim (q ++ " " ++ r))
  | reembed =>
    intro c hc
    simp only [Store.applyOp] at hc
    obtain ⟨d, _, rfl⟩ := List.mem_map.mp hc
    exact E.embed_dim d.content

theorem Gate.confidenceGate_refuse_of_low {cfg : Gate.GateConfig} {s : ℚ}
    (h : s < cfg.fallbackThreshold) : Gate.confidenceGate cfg (some s) = .refuse := by
  simp [confidenceGate, h]

theorem Chunker.flatten_sepStep (c x : Char) (acc : List (List Char)) :
    (sepStep c x acc).flatten = x :: acc.flatten := by
  unfold sepStep
  by_cases h : x = c
  · simp [h]
  · cases acc with
    | nil => simp [h]
    | cons p ps => simp [h]

theorem Chunker.flatten_splitKeepSep (c : Char) (s : List Char) :
    (splitKeepSep c s).flatten = s := by
  unfold splitKeepSep
  induction s with
  | nil => rfl
  | cons x xs ih =>
    simp only [List.foldr]
    rw [flatten_sepStep, ih]

theorem Chunker.flatten_hardCutFuel (fuel n : Nat) :
    ∀ s : List Char, (hardCutFuel fuel n s).flatten = s := by
  induction fuel with
  | zero =>
    intro s
    cases s with
    | nil => rfl
    | cons x xs => simp [hardCutFuel]
  | succ fuel ih =>
    intro s
    cases s with
    | nil => rfl
    | cons x xs =>
      simp only [hardCutFuel, List.flatten_cons]
      rw [ih]
      simp

theorem Chunker.flatten_map_flatten {f : List Char → List (List Char)}
    (hf : ∀ p, (f p).flatten = p) (l : List (List Char)) :
    ((l.map f).flatten).flatten = l.flatten := by
  induction l with
  | nil => rfl
  | cons p ps ih =>
    simp only [List.map_cons, List.flatten_cons, List.flatten_append]
    rw [hf p, ih]

theorem Chunker.flatten_recSplit (n : Nat) (seps : List Char) :
    ∀ s : List Char, (recSplit n seps s).flatten = s := by
  induction seps with
  | nil =>
    intro s
    cases s with
    | nil => rfl
    | cons x xs =>
      simp only [recSplit]
      split
      · simp
      · exact flatten_hardCutFuel _ _ _
  | cons c seps ih =>
    intro s
    cases s with
    | nil => rfl
    | cons x xs =>
      simp only [recSplit]
      split
      · simp
      · rw [flatten_map_flatten ih]
        exact flatten_splitKeepSep c _

theorem Chunker.flatten_mergeFuel (fuel n : Nat) :
    ∀ l : List (List Char), (mergeFuel fuel n l).flatten = l.flatten := by
  induction fuel with
  | zero => intro l; simp [mergeFuel]
  | succ fuel ih =>
    intro l
    cases l with
    | nil => rfl
    | cons p rest =>
      cases rest with
      | nil => simp [mergeFuel]
      | cons q rest =>
        simp only [mergeFuel]
        split
        · rw [ih]
          simp
        · simp only [List.flatten_cons]
          rw [ih]
          simp

theorem Chunker.flatten_segments (n : Nat) (text : List Char) :
    (segments n text).flatten = text := by
  unfold segments mergeSegments
  rw [flatten_mergeFuel, flatten_recSplit]

theorem Chunker.takeLast_length (n : Nat) (s : List Char) :
    (takeLast n s).length = min n s.length := by
  unfold takeLast
  rw [List.length_drop]
  omega

theorem Chunker.strip_addOverlapTail (ov : Nat) :
    ∀ (segs : List (List Char)) (prev : List Char),
      stripOverlaps ov prev (addOverlapTail ov prev segs) = segs := by
  intro segs
  induction segs with
  | nil => intro prev; rfl
  | cons q rest ih =>
    intro prev
    simp only [addOverlapTail, stripOverlaps]
    have hdrop : (takeLast ov prev ++ q).drop (min ov prev.length) = q := by
      rw [← takeLast_length ov prev]
      exact List.drop_left _ _
    rw [hdrop, ih q]

theorem Chunker.reassembleAdaptive_addOverlap (ov : Nat)
    (segs : List (List Char)) :
    reassembleAdaptive ov (addOverlap ov segs) = segs.flatten := by
  cases segs with
  | nil => rfl
  | cons p rest =>
    simp only [addOverlap, reassembleAdaptive]
    rw [strip_addOverlapTail]

/-! Claim theorems -/

/-- C1: with fallbackThreshold 0.3 and answerThreshold 0.6, a top relevance
score of 0.25 maps to a refusal, 0.45 maps to answer-with-warning with
requiresAttention set and one UnansweredQuery record created, and 0.8 maps
to a clean answer with no flag and no UnansweredQuery record. -/
theorem claim_C1 :
    Gate.confidenceGate Gate.defaultConfig (some (25/100)) = .refuse ∧
    Gate.confidenceGate Gate.defaultConfig (some (45/100)) = .answerWithWarning ∧
    (Gate.confidenceGate Gate.defaultConfig (some (45/100))).requiresAttention = true ∧
    (Gate.confidenceGate Gate.defaultConfig (some (45/100))).unansweredRecords = 1 ∧
    Gate.confidenceGate Gate.defaultConfig (some (8/10)) = .answer ∧
    (Gate.confidenceGate Gate.defaultConfig (some (8/10))).requiresAttention = false ∧
    (Gate.confidenceGate Gate.defaultConfig (some (8/10))).unansweredRecords = 0 := by
  have h25 : Gate.confidenceGate Gate.defaultConfig (some (25/100)) = .refuse := by
    have h : (25:ℚ)/100 < 3/10 := by norm_num
    simp [Gate.confidenceGate, Gate.defaultConfig, h]
  have h45 : Gate.confidenceGate Gate.defaultConfig (some (45/100)) = .answerWithWarning := by
    have h1 : ¬ ((45:ℚ)/100 < 3/10) := by norm_num
    have h2 : (45:ℚ)/100 < 6/10 := by norm_num
    simp [Gate.confidenceGate, Gate.defaultConfig, h1, h2]
  have h80 : Gate.confidenceGate Gate.defaultConfig (some (8/10)) = .answer := by
    have h1 : ¬ ((8:ℚ)/10 < 3/10) := by norm_num
    have h2 : ¬ ((8:ℚ)/10 < 6/10) := by norm_num
    simp [Gate.confidenceGate, Gate.defaultConfig, h1, h2]
  refine ⟨h25, h45, by rw [h45]; rfl, by rw [h45]; rfl, h80, by rw [h80]; rfl,
    by rw [h80]; rfl⟩

/-- C8: when the send guard passes, a backend response with
requires_attention true appends user message, bot answer, and the
low-confidence warning immediately after the answer (message list grows by
exactly three); with requires_attention false it grows by exactly two. -/
theorem claim_C8 (st : Chat.ChatState) (resp : Chat.ChatResponse)
    (hin : Chat.jsTrim st.input ≠ "") (hon : st.isOnline = true) :
    (resp.requires_attention = true →
      (Chat.handleSendMessage st (.ok resp)).messages =
        st.messages ++ [⟨st.input, .user⟩, ⟨resp.response, .bot⟩,
          ⟨Chat.lowConfidenceWarning, .bot⟩] ∧
      (Chat.handleSendMessage st (.ok resp)).messages.length =
        st.messages.length + 3) ∧
    (resp.requires_attention = false →
      (Chat.handleSendMessage st (.ok resp)).messages =
        st.messages ++ [⟨st.input, .user⟩, ⟨resp.response, .bot⟩] ∧
      (Chat.handleSendMessage st (.ok resp)).messages.length =
        st.messages.length + 2) := by
  unfold Chat.handleSendMessage
  rw [if_neg (by simp [hin, hon])]
  constructor <;> intro h <;> simp [h]

/-- Witness for C8 at a concrete state and response. -/
theorem claim_C8_witness :
    (Chat.handleSendMessage ⟨[], "hi", false, true⟩
      (.ok ⟨"answer", 1, [], true, "c1"⟩)).messages.length = 0 + 3 := by
  have h := (claim_C8 ⟨[], "hi", false, true⟩ ⟨"answer", 1, [], true, "c1"⟩
    (by decide) rfl).1 rfl
  exact h.2

/-- C9: when the trimmed input is empty (in particular when the input is
all whitespace) or the component is offline, handleSendMessage leaves the
entire component state unchanged. -/
theorem claim_C9 (st : Chat.ChatState) (result : Except Unit Chat.ChatResponse)
    (h : st.input.data.all Chat.jsWhitespace = true ∨ st.isOnline = false) :
    Chat.handleSendMessage st result = st := by
  unfold Chat.handleSendMessage
  rcases h with h | h
  · rw [if_pos (Or.inl (Chat.jsTrim_eq_empty_of_all_ws st.input h))]
  · rw [if_pos (Or.inr h)]

/-- Witness for C9 at a concrete whitespace-only input state whose input
mixes a space, a vertical tab and a no-break space. -/
theorem claim_C9_witness :
    Chat.handleSendMessage ⟨[], " \x0B\u00A0", true, true⟩ (.error ()) =
      ⟨[], " \x0B\u00A0", true, true⟩ :=
  claim_C9 ⟨[], " \x0B\u00A0", true, true⟩ (.error ()) (Or.inl (by decide))

/-- C10: the unnamed-module checkHealth makes up to 3 attempts, each
aborted once the fetch reaches the 20000 ms timeout, waiting 15000 ms
between attempts; it returns the parsed payload on the first successful
attempt and throws only after the third attempt fails, while the
TypeScript checkHealth throws after a single failed attempt. -/
theorem claim_C10 {α : Type} (fetchMs : Nat → Nat) (res : Nat → Health.FetchResult α)
    (v : α) (e1 e2 e3 : Health.HealthError) :
    Health.maxRetries = 3 ∧
    Health.attemptTimeoutMs = 20000 ∧
    Health.retryDelayMs = 15000 ∧
    (∀ r : Health.FetchResult α, Health.attemptResult 20000 r = .error .aborted) ∧
    (Health.attemptResult (fetchMs 1) (res 1) = .ok v →
      Health.checkHealthRetrying fetchMs res = (.ok v, [])) ∧
    (Health.attemptResult (fetchMs 1) (res 1) = .error e1 →
      Health.attemptResult (fetchMs 2) (res 2) = .ok v →
      Health.checkHealthRetrying fetchMs res = (.ok v, [15000])) ∧
    (Health.attemptResult (fetchMs 1) (res 1) = .error e1 →
      Health.attemptResult (fetchMs 2) (res 2) = .error e2 →
      Health.attemptResult (fetchMs 3) (res 3) = .ok v →
      Health.checkHealthRetrying fetchMs res = (.ok v, [15000, 15000])) ∧
    (Health.attemptResult (fetchMs 1) (res 1) = .error e1 →
      Health.attemptResult (fetchMs 2) (res 2) = .error e2 →
      Health.attemptResult (fetchMs 3) (res 3) = .error e3 →
      Health.checkHealthRetrying fetchMs res = (.error e3, [15000, 15000])) ∧
    Health.checkHealthSingle (α := α) .httpError = .error .apiDown ∧
    Health.checkHealthSingle (α := α) .networkError = .error .network := by
  refine ⟨rfl, rfl, rfl, fun r => rfl, ?_, ?_, ?_, ?_, rfl, rfl⟩
  · intro h1
    unfold Health.checkHealthRetrying
    rw [Health.healthLoop_ok h1]
  · intro h1 h2
    unfold Health.checkHealthRetrying
    rw [Health.healthLoop_err_step h1 (by decide), Health.healthLoop_ok h2]
    rfl
  · intro h1 h2 h3
    unfold Health.checkHealthRetrying
    rw [Health.healthLoop_err_step h1 (by decide),
      Health.healthLoop_err_step h2 (by decide), Health.healthLoop_ok h3]
    rfl
  · intro h1 h2 h3
    unfold Health.checkHealthRetrying
    rw [Health.healthLoop_err_step h1 (by decide),
      Health.healthLoop_err_step h2 (by decide),
      Health.healthLoop_err_last h3 (by decide)]
    rfl

/-- Witness for C10: a run whose first two attempts fail (one by timeout)
and whose third succeeds. -/
theorem claim_C10_witness :
    Health.checkHealthRetrying (fun i => if i = 1 then 20000 else 10)
      (fun i => if i ≤ 2 then Health.FetchResult.httpError else .ok 0) =
      (.ok 0, [15000, 15000]) := by
  have h := claim_C10 (fun i => if i = 1 then 20000 else 10)
    (fun i => if i ≤ 2 then Health.FetchResult.httpError else .ok (0 : Nat))
    0 .aborted .apiDown .apiDown
  exact h.2.2.2.2.2.2.1 rfl rfl rfl

/-- C3: the relevance score `(cos + 1) / 2` satisfies: score of a nonzero
vector with itself is 1, score is symmetric, and score always lies in
[0,1]; cosine is 0 when either vector has zero norm. -/
theorem claim_C3 (a b : List ℝ) :
    ((∃ x ∈ a, x ≠ 0) → VecMath.relevanceScore a a = 1) ∧
    VecMath.relevanceScore a b = VecMath.relevanceScore b a ∧
    0 ≤ VecMath.relevanceScore a b ∧ VecMath.relevanceScore a b ≤ 1 := by
  refine ⟨?_, ?_, ?_, ?_⟩
  · intro h
    have hpos : 0 < VecMath.dot a a := VecMath.dot_self_pos h
    have hnorm : 0 < VecMath.vnorm a := Real.sqrt_pos.mpr hpos
    have hcos : VecMath.cosSim a a = 1 := by
      unfold VecMath.cosSim
      rw [if_neg (by push_neg; exact ⟨ne_of_gt hnorm, ne_of_gt hnorm⟩)]
      rw [show VecMath.vnorm a * VecMath.vnorm a = VecMath.dot a a from
        Real.mul_self_sqrt hpos.le]
      exact div_self (ne_of_gt hpos)
    unfold VecMath.relevanceScore
    rw [hcos]
    norm_num
  · unfold VecMath.relevanceScore
    rw [VecMath.cosSim_comm]
  · unfold VecMath.relevanceScore
    have := (VecMath.cosSim_bounds a b).1
    linarith
  · unfold VecMath.relevanceScore
    have := (VecMath.cosSim_bounds a b).2
    linarith

/-- Witness for C3 at the concrete nonzero vector [1]. -/
theorem claim_C3_witness :
    VecMath.relevanceScore [(1 : ℝ)] [(1 : ℝ)] = 1 :=
  (claim_C3 [(1 : ℝ)] [(1 : ℝ)]).1 ⟨1, by simp⟩

/-- C4: for every query scoring and store state, the RetrievalResult has
at most topK entries, is sorted by non-increasing relevance score, and
breaks score ties by ascending insertion order. -/
theorem claim_C4 {ε α : Type} [LinearOrder α] (s : Store.VectorStore ε)
    (f : ε → α) (k : Nat) :
    (s.query f k).length ≤ k ∧
    (s.query f k).Pairwise (fun x y => y.score ≤ x.score) ∧
    (s.query f k).Pairwise (fun x y => x.score = y.score → x.idx < y.idx) := by
  have h := Store.query_pairwise s f k
  refine ⟨?_, h.imp fun hab => hab.1, h.imp fun hab => hab.2⟩
  unfold Store.VectorStore.query
  simp

/-- C5: with dedup enabled, inserting a chunk whose (source, content) pair
is already stored skips the insert and returns the existing id; inserting
a fresh pair twice stores it exactly once and increases count() by exactly
one over the state before the first insert. -/
theorem claim_C5 {ε : Type} (s : Store.VectorStore ε) (c : Store.Chunk ε) :
    (∀ i, s.existingIdx c = some i → s.insert c = (i, s)) ∧
    (s.existingIdx c = none →
      (s.insert c).2.count = s.count + 1 ∧
      ((s.insert c).2).insert c = ((s.insert c).1, (s.insert c).2) ∧
      ((s.insert c).2).countPair c = 1) := by
  constructor
  · intro i h
    unfold Store.VectorStore.insert
    rw [h]
  · intro h
    have hall : ∀ d ∈ s.chunks, Store.samePair c d = false :=
      List.findIdx?_eq_none_iff.mp h
    have hfst : s.insert c = (s.count, ⟨s.chunks ++ [c]⟩) := by
      unfold Store.VectorStore.insert
      rw [h]
    have hidx : (⟨s.chunks ++ [c]⟩ : Store.VectorStore ε).existingIdx c =
        some s.count := by
      unfold Store.VectorStore.existingIdx at h ⊢
      rw [List.findIdx?_append, h]
      simp [Store.samePair_refl c, Store.VectorStore.count]
    refine ⟨?_, ?_, ?_⟩
    · rw [hfst]
      simp [Store.VectorStore.count]
    · rw [hfst]
      unfold Store.VectorStore.insert
      rw [hidx]
    · rw [hfst]
      unfold Store.VectorStore.countPair
      rw [List.filter_append, List.filter_eq_nil_iff.mpr ?_]
      · simp [Store.samePair_refl c]
      · intro d hd
        simp [hall d hd]

/-- Witness for C5: inserting a fresh chunk into the empty store and
re-inserting it leaves exactly one matching stored chunk. -/
theorem claim_C5_witness :
    ((Store.emptyStore Unit).insert ⟨"text", "doc.pdf", "faq", ()⟩).2.countPair
      ⟨"text", "doc.pdf", "faq", ()⟩ = 1 :=
  ((claim_C5 (Store.emptyStore Unit) ⟨"text", "doc.pdf", "faq", ()⟩).2 rfl).2.2

/-- C6: with the Embedder contract of fixed output dimension, the
fixed-embedding-length invariant is preserved by every insert, promote and
re-embedding operation, and holds for every store reachable from the empty
store. -/
theorem claim_C6 :
    (∀ (E : Store.Embedder) (s : Store.VectorStore (List ℝ)) (op : Store.StoreOp),
      Store.dimInvariant E.dim s → Store.dimInvariant E.dim (Store.applyOp E s op)) ∧
    (∀ (E : Store.Embedder) (ops : List Store.StoreOp),
      Store.dimInvariant E.dim (Store.applyOps E (Store.emptyStore _) ops)) := by
  refine ⟨fun E s op h => Store.applyOp_dim op h, ?_⟩
  intro E ops
  have hgen : ∀ (l : List Store.StoreOp) (s : Store.VectorStore (List ℝ)),
      Store.dimInvariant E.dim s → Store.dimInvariant E.dim (Store.applyOps E s l) := by
    intro l
    induction l with
    | nil => exact fun s h => h
    | cons op rest ih =>
      intro s h
      exact ih _ (Store.applyOp_dim op h)
  refine hgen ops _ ?_
  intro c hc
  simp [Store.emptyStore] at hc

/-- Witness for C6: one ingest into the empty store under a concrete
dimension-1 embedder keeps the invariant. -/
theorem claim_C6_witness :
    Store.dimInvariant 1
      (Store.applyOps ⟨1, fun _ => [(0 : ℝ)], fun _ => rfl⟩ (Store.emptyStore _)
        [Store.StoreOp.ingest "text" "doc.pdf" "faq"]) :=
  claim_C6.2 ⟨1, fun _ => [(0 : ℝ)], fun _ => rfl⟩
    [Store.StoreOp.ingest "text" "doc.pdf" "faq"]

/-- C7: a refusal caused by an empty store and a refusal caused by all
retrieved scores lying below fallbackThreshold produce the identical fixed
refusal string, revealing nothing about which condition triggered it. -/
theorem claim_C7 {ε₁ ε₂ : Type} (gen₁ gen₂ : String → String)
    (cfg : Gate.GateConfig) (s₁ : Store.VectorStore ε₁)
    (s₂ : Store.VectorStore ε₂) (f₁ : ε₁ → ℚ) (f₂ : ε₂ → ℚ) (k₁ k₂ : Nat)
    (q₁ q₂ : String) (h₁ : s₁.chunks = [])
    (h₂ : ∀ c ∈ s₂.chunks, f₂ c.embedding < cfg.fallbackThreshold) :
    (Pipeline.respondTurn gen₁ cfg s₁ f₁ k₁ q₁).response = Pipeline.refusalMessage ∧
    (Pipeline.respondTurn gen₂ cfg s₂ f₂ k₂ q₂).response = Pipeline.refusalMessage ∧
    (Pipeline.respondTurn gen₁ cfg s₁ f₁ k₁ q₁).response =
      (Pipeline.respondTurn gen₂ cfg s₂ f₂ k₂ q₂).response := by
  have e₁ : (Pipeline.respondTurn gen₁ cfg s₁ f₁ k₁ q₁).response =
      Pipeline.refusalMessage := by
    have hq : s₁.query f₁ k₁ = [] := by
      have hs : s₁ = Store.emptyStore ε₁ := by
        cases s₁
        simp only [Store.emptyStore]
        simp_all
      rw [hs, Store.query_empty]
    unfold Pipeline.respondTurn
    rw [hq]
    rfl
  have e₂ : (Pipeline.respondTurn gen₂ cfg s₂ f₂ k₂ q₂).response =
      Pipeline.refusalMessage := by
    cases hh : (s₂.query f₂ k₂).head? with
    | none =>
      unfold Pipeline.respondTurn
      rw [hh]
      rfl
    | some x =>
      have hxmem : x ∈ s₂.query f₂ k₂ := by
        cases hl : s₂.query f₂ k₂ with
        | nil => rw [hl] at hh; simp at hh
        | cons a t =>
          rw [hl] at hh
          simp only [List.head?_cons, Option.some.injEq] at hh
          rw [hh]
          exact List.mem_cons_self x t
      obtain ⟨hcm, hsc⟩ := Store.mem_query hxmem
      have hlow : x.score < cfg.fallbackThreshold := by
        rw [hsc]
        exact h₂ _ hcm
      unfold Pipeline.respondTurn
      rw [hh]
      simp only [Option.map_some']
      rw [Gate.confidenceGate_refuse_of_low hlow]
  exact ⟨e₁, e₂, e₁.trans e₂.symm⟩

/-- Witness for C7: the empty store and a one-chunk store whose score is
below the default fallback threshold both refuse with the same string. -/
theorem claim_C7_witness :
    (Pipeline.respondTurn id Gate.defaultConfig (Store.emptyStore Unit)
      (fun _ => 0) 5 "q1").response =
    (Pipeline.respondTurn id Gate.defaultConfig
      (⟨[⟨"text", "doc.pdf", "faq", ()⟩]⟩ : Store.VectorStore Unit)
      (fun _ => 0) 5 "q2").response :=
  (claim_C7 id id Gate.defaultConfig (Store.emptyStore Unit)
    (⟨[⟨"text", "doc.pdf", "faq", ()⟩]⟩ : Store.VectorStore Unit)
    (fun _ => 0) (fun _ => 0) 5 5 "q1" "q2" rfl
    (fun c _ => by norm_num [Gate.defaultConfig])).2.2

/-- C2 counterexample: at the valid configuration chunkSize 10, overlap 8
(0 ≤ 8 < 10), the document "a.bcdefghij" splits without error into two
chunks, but stripping exactly `overlap` leading characters from the
second chunk and concatenating yields "a.hij", not the original text: the
first pre-overlap segment "a." is shorter than the overlap, so the second
chunk borrows only 2 characters while 8 are stripped. -/
theorem claim_C2_counterexample :
    8 < 10 ∧
    Chunker.split "a.bcdefghij".data 10 8 =
      .ok ["a.".data, "a.bcdefghij".data] ∧
    Chunker.reassemble 8 ["a.".data, "a.bcdefghij".data] = "a.hij".data ∧
    "a.hij".data ≠ "a.bcdefghij".data := by
  refine ⟨by decide, by rfl, by decide, by decide⟩

/-- C2 (amended): for every document and valid configuration
(0 ≤ overlap < chunkSize), stripping from every chunk except the first
its borrowed prefix — min(overlap, length of the previous pre-overlap
segment) characters, which equals `overlap` whenever the previous segment
is at least `overlap` long — and concatenating reproduces the original
text exactly; the empty input splits to the empty sequence, not an
error. -/
theorem claim_C2 (text : List Char) (chunkSize overlap : Nat)
    (h : overlap < chunkSize) :
    (∀ cs, Chunker.split text chunkSize overlap = .ok cs →
      Chunker.reassembleAdaptive overlap cs = text) ∧
    Chunker.split [] chunkSize overlap = .ok [] := by
  constructor
  · intro cs hcs
    unfold Chunker.split at hcs
    rw [if_pos h] at hcs
    have hcs' : Chunker.addOverlap overlap (Chunker.segments chunkSize text)
        = cs := by
      injection hcs
    rw [← hcs', Chunker.reassembleAdaptive_addOverlap,
      Chunker.flatten_segments]
  · unfold Chunker.split
    rw [if_pos h]
    rfl

/-- Witness for C2 at chunkSize 3, overlap 1, document "ab". -/
theorem claim_C2_witness :
    Chunker.reassembleAdaptive 1 ["ab".data] = "ab".data ∧
    Chunker.split [] 3 1 = .ok [] :=
  ⟨(claim_C2 "ab".data 3 1 (by decide)).1 ["ab".data] (by rfl),
    (claim_C2 [] 3 1 (by decide)).2⟩
